import Mathlib

set_option maxRecDepth 4000

unseal Rat.add Rat.sub Rat.mul Rat.inv Rat.ofScientific

/-!
Gain-trend analysis pipeline (`cos_monitoring/cci/findbad.py`): shallow embedding.

Per-(segment, high-voltage) partition data is a list of `GainRow` records (the
rows of the `Gain` table restricted to that partition).  Floating point values
are modelled as exact rationals; `numpy.ndarray.std` comparisons of the form
`|r| < 1.5 * std` are embedded in their squared form `r^2 < (9/4) * var`
(equivalent since both sides of the original comparison are nonnegative).

The binning constants `Y_BINNING` / `X_BINNING` live in `cci/constants.py`,
which is not part of the sources at hand; they are modelled from the spec as
arbitrary (positive where needed) natural-number parameters `BY` / `BX`.
-/

/-- One row of the `Gain` table, restricted to a fixed (segment, dethv)
partition: superpixel coordinates, gain measurement, supporting counts,
standard deviation and observation start date (MJD). -/
structure GainRow where
  x : ℕ
  y : ℕ
  gain : ℚ
  counts : ℚ
  std : ℚ
  expstart : ℚ
deriving DecidableEq, Repr

/-- One row of the `Flagged` table (`find_flagged` output) within a fixed
(segment, dethv) partition. -/
structure FlaggedRow where
  mjd : ℚ
  x : ℕ
  y : ℕ
deriving DecidableEq, Repr

/-- One row of the `GainTrends` table (`measure_slopes` output) within a fixed
(segment, dethv) partition. -/
structure GainTrendRow where
  mjd : ℚ
  x : ℕ
  y : ℕ
  slope : ℚ
  intercept : ℚ
deriving DecidableEq, Repr

/-- Sum of the x components of a list of (x, y) points. -/
def Sx (pts : List (ℚ × ℚ)) : ℚ := (pts.map (fun p => p.1)).sum

/-- Sum of the y components. -/
def Sy (pts : List (ℚ × ℚ)) : ℚ := (pts.map (fun p => p.2)).sum

/-- Sum of squared x components. -/
def Sxx (pts : List (ℚ × ℚ)) : ℚ := (pts.map (fun p => p.1 ^ 2)).sum

/-- Sum of x·y products. -/
def Sxy (pts : List (ℚ × ℚ)) : ℚ := (pts.map (fun p => p.1 * p.2)).sum

/-- `scipy.polyfit(x, y, 1)`: ordinary least-squares straight line, returned
as (slope, intercept).  On a nondegenerate design (`n·Sxx - Sx² ≠ 0`) these
are the closed-form least-squares solutions, which is what the numerical
routine computes.  On a degenerate design (all x equal) numpy returns a
minimum-norm least-squares solution; we model that branch as the
least-squares solution `(0, mean y)`, which attains the same (minimal)
residual sum of squares — no theorem below depends on the parameter values
of this branch beyond that minimality. -/
def polyfit (pts : List (ℚ × ℚ)) : ℚ × ℚ :=
  let n : ℚ := pts.length
  let d : ℚ := n * Sxx pts - Sx pts ^ 2
  if d = 0 then
    (0, if n = 0 then 0 else Sy pts / n)
  else
    ((n * Sxy pts - Sx pts * Sy pts) / d, (Sxx pts * Sy pts - Sx pts * Sxy pts) / d)

/-- Arithmetic mean of a list (`ndarray.mean`); `0` for the empty list
(division by zero in `ℚ`). -/
def listMean (l : List ℚ) : ℚ := l.sum / l.length

/-- Square of `ndarray.std()` (population variance, `ddof = 0`). -/
def npVar (l : List ℚ) : ℚ := ((l.map (fun v => (v - listMean l) ^ 2)).sum) / l.length

/-- The fitted values `scipy.polyval((slope, intercept), x_fit)` of the first
(unclipped) fit inside `time_fitting`. -/
def fitVals (pts : List (ℚ × ℚ)) : List ℚ :=
  pts.map (fun p => (polyfit pts).1 * p.1 + (polyfit pts).2)

/-- The sigma-clipped point set of `time_fitting`: the source keeps index `i`
iff `|fit[i] - y_fit[i]| < 1.5 * fit.std()`, where `fit.std()` is the standard
deviation of the fitted values; squared form of the same comparison. -/
def clippedSubset (pts : List (ℚ × ℚ)) : List (ℚ × ℚ) :=
  pts.filter (fun p =>
    decide (((polyfit pts).1 * p.1 + (polyfit pts).2 - p.2) ^ 2 <
      9 / 4 * npVar (fitVals pts)))

/-- `time_fitting(x_fit, y_fit)` on the list of points `(x_fit[i], y_fit[i])`:
first least-squares fit, one-pass sigma clip against `1.5 * fit.std()`,
failure (`None, None, False`) if fewer than 4 points survive, otherwise a
refit on the clipped subset.  `none` models the failure triple; `some (a, b)`
models success with refit parameters `(slope, intercept)`. -/
def time_fitting (pts : List (ℚ × ℚ)) : Option (ℚ × ℚ) :=
  if (clippedSubset pts).length < 4 then none
  else some (polyfit (clippedSubset pts))

/-- Python `round(q, 5)` on our exact-rational model of the float values:
round half to even at the fifth decimal. -/
def round5 (q : ℚ) : ℚ :=
  let s : ℚ := q * 100000
  let f : ℤ := ⌊s⌋
  let i : ℤ :=
    if s - f < 1 / 2 then f
    else if 1 / 2 < s - f then f + 1
    else if f % 2 = 0 then f else f + 1
  (i : ℚ) / 100000

/-- `scipy.optimize.newton(f, seed, fprime, args=(a, b), tol=1e-5,
maxiter=1000)` for the linear target `f(t) = a·t + b - 3` with derivative
`a`: one Newton step from any seed lands exactly on the root `(3 - b)/a`, and
the following step has size `0 < tol`, so the iteration converges to exactly
that root for every `a ≠ 0`; for `a = 0` the zero derivative makes the
iteration fail with a `RuntimeError` (modelled by `none`, caught by the
caller).  The seed is kept as an argument for fidelity although it does not
influence the exact result. -/
def newtonLinear (a b seed : ℚ) : Option ℚ :=
  if a = 0 then none else some ((3 - b) / a)

/-- Insertion step for the gain-ascending sort. -/
def insertByGain (r : GainRow) : List GainRow → List GainRow
  | [] => [r]
  | a :: t => if r.gain ≤ a.gain then r :: a :: t else a :: insertByGain r t

/-- `argsort`-style sort of the samples by gain ascending (`all_gain.argsort()`
applied to both arrays).  The numerical sort is not stable, but every
quantity computed downstream (sums, filters, the maximal gain) depends only
on the multiset of samples, so a stable insertion sort is an equivalent
model. -/
def sortByGain : List GainRow → List GainRow
  | [] => []
  | a :: t => insertByGain a (sortByGain t)

/-- Minimum of a list (`ndarray.min()` of a nonempty array); `0` as the
(unused) value for the empty list. -/
def listMin : List ℚ → ℚ
  | [] => 0
  | a :: t => t.foldl min a

/-- Last element of a list (`arr[-1]` of a nonempty array); `0` as the
(unused) value for the empty list. -/
def listLast : List ℚ → ℚ
  | [] => 0
  | [a] => a
  | _ :: b :: t => listLast (b :: t)

/-- The coordinate enumeration of `find_flagged`: distinct (x, y) with some
row satisfying `gain <= 3 AND counts >= 30` (no era or band filter here). -/
def flagCoords (rows : List GainRow) : List (ℕ × ℕ) :=
  ((rows.filter (fun r => decide (r.gain ≤ 3 ∧ 30 ≤ r.counts))).map
    (fun r => (r.x, r.y))).dedup

/-- The per-coordinate sample query of `find_flagged`: all rows at `(x, y)`
with `expstart > 55197` (no gain or counts condition). -/
def coordSamples (rows : List GainRow) (x y : ℕ) : List GainRow :=
  rows.filter (fun r => decide (r.x = x ∧ r.y = y ∧ 55197 < r.expstart))

/-- The body of the `find_flagged` loop for one enumerated coordinate:
skip coordinates outside the spectral band, collect the era-filtered samples,
and if any has `gain <= 3` emit a `Flagged` row dated at the earliest such
sample. `BY` models `Y_BINNING`. -/
def flagRow (BY : ℕ) (rows : List GainRow) (x y : ℕ) : Option FlaggedRow :=
  if 600 / BY < y ∨ y < 400 / BY then none
  else
    let below := (coordSamples rows x y).filter (fun r => decide (r.gain ≤ 3))
    if below.isEmpty then none
    else some ⟨round5 (listMin (below.map (fun r => r.expstart))), x, y⟩

/-- `find_flagged` for one (segment, dethv) partition: rows added to the
`Flagged` table, in coordinate-enumeration order. -/
def find_flagged (BY : ℕ) (rows : List GainRow) : List FlaggedRow :=
  (flagCoords rows).filterMap (fun c => flagRow BY rows c.1 c.2)

/-- The coordinate enumeration of `measure_slopes`: ALL distinct (x, y)
present in the partition. -/
def allCoords (rows : List GainRow) : List (ℕ × ℕ) :=
  (rows.map (fun r => (r.x, r.y))).dedup

/-- The per-coordinate sample query of `measure_slopes`: rows at `(x, y)`
with `gain > 0` and `expstart > 55197`. -/
def validSamples (rows : List GainRow) (x y : ℕ) : List GainRow :=
  rows.filter (fun r => decide (r.x = x ∧ r.y = y ∧ 0 < r.gain ∧ 55197 < r.expstart))

/-- The body of the `measure_slopes` loop for one coordinate: band filter,
era/positivity filter, `> 5` sample requirement, gain-ascending sort,
`time_fitting`, Newton root of `slope·t + intercept - 3` seeded at the
largest gain (with `RuntimeError → date_bad = 0`), and the emitted
`GainTrends` row with values rounded to 5 decimals. -/
def slopeRow (BY : ℕ) (rows : List GainRow) (x y : ℕ) : Option GainTrendRow :=
  if 600 / BY < y ∨ y < 400 / BY then none
  else
    let valid := validSamples rows x y
    if valid.length ≤ 5 then none
    else
      let sorted := sortByGain valid
      match time_fitting (sorted.map (fun r => (r.expstart, r.gain))) with
      | none => none
      | some (slope, intercept) =>
        let date_bad := (newtonLinear slope intercept (listLast (sorted.map (fun r => r.gain)))).getD 0
        some ⟨round5 date_bad, x, y, round5 slope, round5 intercept⟩

/-- `measure_slopes` for one (segment, dethv) partition: rows added to the
`GainTrends` table, in coordinate-enumeration order. -/
def measure_slopes (BY : ℕ) (rows : List GainRow) : List GainTrendRow :=
  (allCoords rows).filterMap (fun c => slopeRow BY rows c.1 c.2)

/-- Sum of squared y components. -/
def Syy (pts : List (ℚ × ℚ)) : ℚ := (pts.map (fun p => p.2 ^ 2)).sum

/-- Residual sum of squares of the line `y = a·x + b` over a point set. -/
def SS (a b : ℚ) (pts : List (ℚ × ℚ)) : ℚ :=
  (pts.map (fun p => (p.2 - (a * p.1 + b)) ^ 2)).sum

/-- Square of the residual standard deviation of the line `y = a·x + b` over
a point set (population standard deviation of the residual list). -/
def resVar (a b : ℚ) (pts : List (ℚ × ℚ)) : ℚ :=
  npVar (pts.map (fun p => p.2 - (a * p.1 + b)))

/-- Modelled from the spec: "Compute residual standard deviation of the fit.
Retain only points whose absolute residual is < 1.5x that standard deviation."
The retention step as the spec words it, with the clipping threshold derived
from the standard deviation of the RESIDUALS of the first fit (squared form
of the comparison); to be compared against `clippedSubset`, which is what the
source computes. -/
def specResidClipped (pts : List (ℚ × ℚ)) : List (ℚ × ℚ) :=
  pts.filter (fun p =>
    decide (((polyfit pts).1 * p.1 + (polyfit pts).2 - p.2) ^ 2 <
      9 / 4 * npVar (pts.map (fun q => (polyfit pts).1 * q.1 + (polyfit pts).2 - q.2))))

/-- The pixel block of a `GainTrends` row in the full-resolution projection:
`[y*Y_BINNING : y*Y_BINNING+Y_BINNING, x*X_BINNING : x*X_BINNING+X_BINNING]`.
`BY`, `BX` model `Y_BINNING`, `X_BINNING`. -/
def inBlock (BY BX : ℕ) (r : GainTrendRow) (i j : ℕ) : Prop :=
  r.y * BY ≤ i ∧ i < r.y * BY + BY ∧ r.x * BX ≤ j ∧ j < r.x * BX + BX

instance (BY BX : ℕ) (r : GainTrendRow) (i j : ℕ) : Decidable (inBlock BY BX r i j) :=
  inferInstanceAs (Decidable (_ ∧ _ ∧ _ ∧ _))

/-- One block assignment `image[y*BY : y*BY+BY, x*BX : x*BX+BX] = v` of the
projection loop, as a pixel-indexed function update. -/
def paint (BY BX : ℕ) (v : ℚ) (r : GainTrendRow) (img : ℕ → ℕ → ℚ) : ℕ → ℕ → ℚ :=
  fun i j => if inBlock BY BX r i j then v else img i j

/-- The dense projection array built by the `time_trends` row loop from a
zero-initialized `np.zeros((1024, 16384))` array, with `f` selecting which
attribute of the row is scattered (slope, intercept or mjd). -/
def buildImage (BY BX : ℕ) (f : GainTrendRow → ℚ) (rows : List GainTrendRow) : ℕ → ℕ → ℚ :=
  rows.foldl (fun img r => paint BY BX (f r) r img) (fun _ _ => 0)

/-- The `slope_image` array of `time_trends`. -/
def slopeImage (BY BX : ℕ) (rows : List GainTrendRow) : ℕ → ℕ → ℚ :=
  buildImage BY BX (fun r => r.slope) rows

/-- The `intercept_image` array of `time_trends`. -/
def interceptImage (BY BX : ℕ) (rows : List GainTrendRow) : ℕ → ℕ → ℚ :=
  buildImage BY BX (fun r => r.intercept) rows

/-- The `bad_image` array of `time_trends`. -/
def badImage (BY BX : ℕ) (rows : List GainTrendRow) : ℕ → ℕ → ℚ :=
  buildImage BY BX (fun r => r.mjd) rows

/-- `slope_image.any()`: some pixel of the (1024, 16384) slope array is
nonzero. -/
def slopeAny (BY BX : ℕ) (rows : List GainTrendRow) : Bool :=
  (List.range 1024).any (fun i =>
    (List.range 16384).any (fun j => decide (slopeImage BY BX rows i j ≠ 0)))

/-- The projection output step of `time_trends` for one (segment, dethv)
combination: `write_projection` is invoked with the three arrays only when
`slope_image.any()`; otherwise no artifact is produced. -/
def projection (BY BX : ℕ) (rows : List GainTrendRow) :
    Option ((ℕ → ℕ → ℚ) × (ℕ → ℕ → ℚ) × (ℕ → ℕ → ℚ)) :=
  if slopeAny BY BX rows then
    some (slopeImage BY BX rows, interceptImage BY BX rows, badImage BY BX rows)
  else none

/-- A partition row at the fixed in-band coordinate (100, 250) used by the
concrete datasets below (band bounds with `Y_BINNING = 2`: 200 ≤ y ≤ 300). -/
def mkRow (e g c : ℚ) : GainRow := ⟨100, 250, g, c, 0, e⟩

/-- The spec's concrete scenario: six samples of linearly decaying gain. -/
def exScenario : List GainRow :=
  [mkRow 55200 4 50, mkRow 55300 (7/2) 50, mkRow 55400 3 50,
   mkRow 55500 (5/2) 50, mkRow 55600 2 50, mkRow 55700 (3/2) 50]

/-- Six valid samples of constant gain: the first fit is flat, so the
clipping threshold is zero and the fit fails. -/
def exFlat : List GainRow :=
  [mkRow 55200 2 50, mkRow 55300 2 50, mkRow 55400 2 50,
   mkRow 55500 2 50, mkRow 55600 2 50, mkRow 55700 2 50]

/-- The first five samples of `exFlat` preceded by a sixth sample that the
era filter drops: exactly 5 valid samples. -/
def exFive : List GainRow :=
  [mkRow 55100 2 50, mkRow 55300 2 50, mkRow 55400 2 50,
   mkRow 55500 2 50, mkRow 55600 2 50, mkRow 55700 2 50]

/-- Five flat samples and one outlier: the first fit is tilted by the
outlier, the sigma clip drops the outlier (and one flat point), and the
refit on the four remaining flat points has slope exactly 0, driving the
Newton step into its zero-derivative failure. -/
def exFlatOutlier : List GainRow :=
  [mkRow 55200 2 50, mkRow 55300 2 50, mkRow 55400 2 50,
   mkRow 55500 2 50, mkRow 55600 2 50, mkRow 55700 10 50]

/-- Perfectly linear data `y = x`: the residuals of the first fit are all
zero, so the residual standard deviation is 0 while the standard deviation
of the fitted values is positive. -/
def exLine : List (ℚ × ℚ) := [(0, 0), (1, 1), (2, 2), (3, 3), (4, 4), (5, 5)]

/-- A sample dated exactly at the era boundary MJD 55197. -/
def exEraRow : GainRow := mkRow 55197 2 50

/-- A coordinate with one sample at the era boundary 55197 and one later
sample. -/
def exEra : List GainRow := [exEraRow, mkRow 55300 (5/2) 50]

/-- A coordinate enumerated for flagging because of its (gain 3, counts 30)
sample, whose earliest below-threshold sample has counts 10 < 30. -/
def exC10 : List GainRow := [mkRow 55400 3 30, mkRow 55300 2 10]

/-- A single `GainTrends` row at binned (x = 2, y = 50) with slope -0.01,
as in the spec's projection-reconstruction scenario. -/
def exTrendRow : GainTrendRow := ⟨55400, 2, 50, -1/100, 280⟩

/-! Basic list-sum facts used throughout. -/

lemma sum_map_nonneg {α : Type} (l : List α) (f : α → ℚ) (h : ∀ a ∈ l, 0 ≤ f a) :
    0 ≤ (l.map f).sum := by
  apply List.sum_nonneg
  intro q hq
  obtain ⟨a, ha, rfl⟩ := List.mem_map.mp hq
  exact h a ha

lemma all_zero_of_sum_nonneg_zero (l : List ℚ) (h0 : ∀ v ∈ l, 0 ≤ v)
    (hs : l.sum = 0) : ∀ v ∈ l, v = 0 := by
  induction l with
  | nil => intro v hv; cases hv
  | cons a t ih =>
    have hts : 0 ≤ t.sum := List.sum_nonneg (fun v hv => h0 v (List.mem_cons_of_mem a hv))
    have ha : 0 ≤ a := h0 a (List.mem_cons_self a t)
    have hsum : a + t.sum = 0 := by simpa using hs
    intro v hv
    rcases List.mem_cons.mp hv with rfl | hvt
    · linarith
    · exact ih (fun w hw => h0 w (List.mem_cons_of_mem a hw)) (by linarith) v hvt

lemma sum_affine_sq (l : List ℚ) (c s : ℚ) :
    (l.map (fun v => (c * v - s) ^ 2)).sum =
      c ^ 2 * (l.map (fun v => v ^ 2)).sum - 2 * c * s * l.sum + l.length * s ^ 2 := by
  induction l with
  | nil => simp
  | cons a t ih =>
    simp only [List.map_cons, List.sum_cons, List.length_cons]
    push_cast
    linear_combination ih

lemma sum_le_length_mul (l : List ℚ) (T : ℚ) (h : ∀ v ∈ l, v ≤ T) :
    l.sum ≤ l.length * T := by
  induction l with
  | nil => simp
  | cons a t ih =>
    simp only [List.sum_cons, List.length_cons]
    push_cast
    have h1 : a ≤ T := h a (List.mem_cons_self a t)
    have h2 : t.sum ≤ t.length * T := ih (fun v hv => h v (List.mem_cons_of_mem a hv))
    linarith

lemma length_mul_le_sum (l : List ℚ) (T : ℚ) (h : ∀ v ∈ l, T ≤ v) :
    l.length * T ≤ l.sum := by
  induction l with
  | nil => simp
  | cons a t ih =>
    simp only [List.sum_cons, List.length_cons]
    push_cast
    have h1 : T ≤ a := h a (List.mem_cons_self a t)
    have h2 : t.length * T ≤ t.sum := ih (fun v hv => h v (List.mem_cons_of_mem a hv))
    linarith

lemma map_filter_comm {α : Type} (f : α → ℚ) (p : ℚ → Bool) (l : List α) :
    (l.filter (fun a => p (f a))).map f = (l.map f).filter p := by
  induction l with
  | nil => simp
  | cons a t ih =>
    by_cases hp : p (f a)
    · simp [List.filter_cons, hp, ih]
    · simp [List.filter_cons, hp, ih]

lemma filter_partition_sum (l : List ℚ) (p : ℚ → Bool) :
    (l.filter p).sum + (l.filter (fun v => !(p v))).sum = l.sum := by
  induction l with
  | nil => simp
  | cons a t ih =>
    by_cases hp : p a
    · simp [List.filter_cons, hp]; linarith
    · simp [List.filter_cons, hp]; linarith

lemma filter_partition_length (l : List ℚ) (p : ℚ → Bool) :
    (l.filter p).length + (l.filter (fun v => !(p v))).length = l.length := by
  induction l with
  | nil => simp
  | cons a t ih =>
    by_cases hp : p a
    · simp [List.filter_cons, hp]; omega
    · simp [List.filter_cons, hp]; omega

/-! Least-squares structure of `polyfit`. -/

lemma SS_poly (a b : ℚ) (pts : List (ℚ × ℚ)) :
    SS a b pts = Syy pts - 2 * a * Sxy pts - 2 * b * Sy pts + a ^ 2 * Sxx pts +
      2 * a * b * Sx pts + pts.length * b ^ 2 := by
  induction pts with
  | nil => simp [SS, Syy, Sxy, Sy, Sxx, Sx]
  | cons p t ih =>
    simp only [SS, Syy, Sxy, Sy, Sxx, Sx, List.map_cons, List.sum_cons, List.length_cons] at ih ⊢
    push_cast
    linear_combination ih

lemma res_sum (a b : ℚ) (pts : List (ℚ × ℚ)) :
    (pts.map (fun p => p.2 - (a * p.1 + b))).sum =
      Sy pts - a * Sx pts - pts.length * b := by
  induction pts with
  | nil => simp [Sy, Sx]
  | cons p t ih =>
    simp only [Sy, Sx, List.map_cons, List.sum_cons, List.length_cons] at ih ⊢
    push_cast
    linear_combination ih

lemma res_sq_sum (a b : ℚ) (pts : List (ℚ × ℚ)) :
    ((pts.map (fun p => p.2 - (a * p.1 + b))).map (fun v => v ^ 2)).sum = SS a b pts := by
  rw [List.map_map]
  rfl

lemma nd_mul : ∀ pts : List (ℚ × ℚ),
    ((pts.map (fun p => p.1)).map
      (fun v => ((pts.length : ℚ) * v - Sx pts) ^ 2)).sum =
      (pts.length : ℚ) * ((pts.length : ℚ) * Sxx pts - Sx pts ^ 2) := by
  intro pts
  rw [sum_affine_sq]
  have h2 : ((pts.map (fun p => p.1)).map (fun v => v ^ 2)).sum = Sxx pts := by
    rw [List.map_map]; rfl
  have h1 : (pts.map (fun p => p.1)).sum = Sx pts := rfl
  have hl : ((pts.map (fun p => p.1)).length : ℚ) = (pts.length : ℚ) := by
    rw [List.length_map]
  rw [h2, h1, hl]
  ring

lemma nd_nonneg (pts : List (ℚ × ℚ)) :
    0 ≤ (pts.length : ℚ) * Sxx pts - Sx pts ^ 2 := by
  rcases List.eq_nil_or_concat pts with rfl | _
  · simp [Sxx, Sx]
  · have hnn : 0 ≤ ((pts.map (fun p => p.1)).map
        (fun v => ((pts.length : ℚ) * v - Sx pts) ^ 2)).sum :=
      sum_map_nonneg _ _ (fun a _ => sq_nonneg _)
    rw [nd_mul] at hnn
    rcases Nat.eq_zero_or_pos pts.length with h0 | hpos
    · simp [List.length_eq_zero.mp h0, Sxx, Sx]
    · have : (0 : ℚ) < pts.length := by exact_mod_cast hpos
      nlinarith

lemma all_x_eq_of_d_zero (pts : List (ℚ × ℚ)) (hne : pts ≠ [])
    (hd : (pts.length : ℚ) * Sxx pts - Sx pts ^ 2 = 0) :
    ∀ p ∈ pts, (p.1 : ℚ) = Sx pts / pts.length := by
  have hl : pts.length ≠ 0 := fun h => hne (List.length_eq_zero.mp h)
  have hn : (0 : ℚ) < pts.length := by exact_mod_cast Nat.pos_of_ne_zero hl
  have hsum : ((pts.map (fun p => p.1)).map
      (fun v => ((pts.length : ℚ) * v - Sx pts) ^ 2)).sum = 0 := by
    rw [nd_mul, hd, mul_zero]
  have hz := all_zero_of_sum_nonneg_zero _
    (by intro v hv; obtain ⟨w, _, rfl⟩ := List.mem_map.mp hv; exact sq_nonneg _) hsum
  intro p hp
  have hmem : ((pts.length : ℚ) * p.1 - Sx pts) ^ 2 ∈
      ((pts.map (fun q => q.1)).map (fun v => ((pts.length : ℚ) * v - Sx pts) ^ 2)) :=
    List.mem_map_of_mem _ (List.mem_map_of_mem _ hp)
  have := hz _ hmem
  have hlin : (pts.length : ℚ) * p.1 - Sx pts = 0 := by
    exact pow_eq_zero_iff (n := 2) (by norm_num) |>.mp this
  field_simp
  linarith

lemma sxy_of_const (pts : List (ℚ × ℚ)) (c : ℚ) (h : ∀ p ∈ pts, (p.1 : ℚ) = c) :
    Sxy pts = c * Sy pts := by
  induction pts with
  | nil => simp [Sxy, Sy]
  | cons p t ih =>
    simp only [Sxy, Sy, List.map_cons, List.sum_cons] at ih ⊢
    have hp := h p (List.mem_cons_self p t)
    have ht := ih (fun q hq => h q (List.mem_cons_of_mem p hq))
    rw [hp, ht]
    ring

lemma polyfit_normal (pts : List (ℚ × ℚ)) (hne : pts ≠ []) :
    Sy pts - (polyfit pts).1 * Sx pts - (pts.length : ℚ) * (polyfit pts).2 = 0 ∧
    Sxy pts - (polyfit pts).1 * Sxx pts - (polyfit pts).2 * Sx pts = 0 := by
  have hl : pts.length ≠ 0 := fun h => hne (List.length_eq_zero.mp h)
  have hn : ((pts.length : ℚ)) ≠ 0 := Nat.cast_ne_zero.mpr hl
  by_cases hd : (pts.length : ℚ) * Sxx pts - Sx pts ^ 2 = 0
  · have hpf : polyfit pts = (0, Sy pts / pts.length) := by
      simp only [polyfit]
      rw [if_pos hd, if_neg hn]
    rw [hpf]
    constructor
    · simp only
      field_simp
    · simp only
      have hx := all_x_eq_of_d_zero pts hne hd
      have hxy := sxy_of_const pts (Sx pts / pts.length) hx
      rw [hxy]
      have hsx : Sx pts = (Sx pts / pts.length) * pts.length := by field_simp
      field_simp
      ring
  · have hpf : polyfit pts =
        (((pts.length : ℚ) * Sxy pts - Sx pts * Sy pts) /
          ((pts.length : ℚ) * Sxx pts - Sx pts ^ 2),
         (Sxx pts * Sy pts - Sx pts * Sxy pts) /
          ((pts.length : ℚ) * Sxx pts - Sx pts ^ 2)) := by
      simp only [polyfit]
      rw [if_neg hd]
    rw [hpf]
    constructor
    · simp only
      field_simp
      ring
    · simp only
      field_simp
      ring

lemma polyfit_min (pts : List (ℚ × ℚ)) (hne : pts ≠ []) (a b : ℚ) :
    SS (polyfit pts).1 (polyfit pts).2 pts ≤ SS a b pts := by
  obtain ⟨hE2, hE1⟩ := polyfit_normal pts hne
  have hl : pts.length ≠ 0 := fun h => hne (List.length_eq_zero.mp h)
  have hn : (0 : ℚ) < pts.length := by exact_mod_cast Nat.pos_of_ne_zero hl
  set A := (polyfit pts).1 with hA
  set B := (polyfit pts).2 with hB
  have key : SS a b pts - SS A B pts =
      ((a - A) ^ 2 * Sxx pts + 2 * (a - A) * (b - B) * Sx pts +
        (pts.length : ℚ) * (b - B) ^ 2)
      - 2 * (a - A) * (Sxy pts - A * Sxx pts - B * Sx pts)
      - 2 * (b - B) * (Sy pts - A * Sx pts - (pts.length : ℚ) * B) := by
    rw [SS_poly, SS_poly]
    ring
  rw [hE1, hE2, mul_zero, mul_zero, sub_zero, sub_zero] at key
  have hq : (pts.length : ℚ) * (SS a b pts - SS A B pts) =
      (Sx pts * (a - A) + (pts.length : ℚ) * (b - B)) ^ 2 +
      ((pts.length : ℚ) * Sxx pts - Sx pts ^ 2) * (a - A) ^ 2 := by
    rw [key]
    ring
  have h1 : 0 ≤ (Sx pts * (a - A) + (pts.length : ℚ) * (b - B)) ^ 2 := sq_nonneg _
  have h2 : 0 ≤ ((pts.length : ℚ) * Sxx pts - Sx pts ^ 2) * (a - A) ^ 2 :=
    mul_nonneg (nd_nonneg pts) (sq_nonneg _)
  nlinarith

/-! Facts about `npVar` (the squared population standard deviation). -/

lemma npVar_nonneg (l : List ℚ) : 0 ≤ npVar l :=
  div_nonneg (sum_map_nonneg _ _ (fun a _ => sq_nonneg _)) (Nat.cast_nonneg _)

lemma npVar_eq (l : List ℚ) (h : l ≠ []) :
    npVar l = (l.map (fun v => v ^ 2)).sum / l.length - listMean l ^ 2 := by
  have hl : l.length ≠ 0 := fun h0 => h (List.length_eq_zero.mp h0)
  have hn : ((l.length : ℚ)) ≠ 0 := Nat.cast_ne_zero.mpr hl
  have expand := sum_affine_sq l 1 (listMean l)
  simp only [one_mul, one_pow] at expand
  rw [npVar, expand, listMean]
  field_simp
  ring

lemma npVar_le_meanSq (l : List ℚ) : npVar l ≤ (l.map (fun v => v ^ 2)).sum / l.length := by
  rcases eq_or_ne l [] with rfl | hne
  · simp [npVar, listMean]
  · rw [npVar_eq l hne]
    have := sq_nonneg (listMean l)
    linarith

lemma npVar_of_sum_zero (l : List ℚ) (h : l.sum = 0) :
    npVar l = (l.map (fun v => v ^ 2)).sum / l.length := by
  rcases eq_or_ne l [] with rfl | hne
  · simp [npVar, listMean]
  · rw [npVar_eq l hne, listMean, h]
    simp

lemma npVar_const (l : List ℚ) (c : ℚ) (h : ∀ v ∈ l, v = c) : npVar l = 0 := by
  rcases eq_or_ne l [] with rfl | hne
  · simp [npVar, listMean]
  · have hl : l.length ≠ 0 := fun h0 => hne (List.length_eq_zero.mp h0)
    have hn : ((l.length : ℚ)) ≠ 0 := Nat.cast_ne_zero.mpr hl
    have hsum : l.sum = l.length * c :=
      le_antisymm (sum_le_length_mul l c (fun v hv => le_of_eq (h v hv)))
        (length_mul_le_sum l c (fun v hv => ge_of_eq (h v hv)))
    have hm : listMean l = c := by rw [listMean, hsum]; field_simp
    have hz : (l.map (fun v => (v - listMean l) ^ 2)).sum = 0 := by
      apply List.sum_eq_zero
      intro q hq
      obtain ⟨v, hv, rfl⟩ := List.mem_map.mp hq
      rw [hm, h v hv]
      ring
    rw [npVar, hz, zero_div]

/-- Removing from a list exactly the elements at or above a bound `T` cannot
increase the mean. -/
lemma mean_filter_le (l : List ℚ) (p : ℚ → Bool) (T : ℚ)
    (hkeep : ∀ v ∈ l, p v = true → v ≤ T) (hdrop : ∀ v ∈ l, p v = false → T ≤ v)
    (hne : l.filter p ≠ []) :
    (l.filter p).sum / (l.filter p).length ≤ l.sum / l.length := by
  have hsum := filter_partition_sum l p
  have hlen := filter_partition_length l p
  have hkS : (l.filter p).sum ≤ (l.filter p).length * T :=
    sum_le_length_mul _ _ (fun v hv =>
      hkeep v (List.mem_filter.mp hv).1 (List.mem_filter.mp hv).2)
  have hdS : (l.filter (fun v => !(p v))).length * T ≤ (l.filter (fun v => !(p v))).sum :=
    length_mul_le_sum _ _ (fun v hv =>
      hdrop v (List.mem_filter.mp hv).1
        (by
          have := (List.mem_filter.mp hv).2
          simpa using this))
  have hkL : (0 : ℚ) < (l.filter p).length := by
    exact_mod_cast Nat.pos_of_ne_zero (fun h0 => hne (List.length_eq_zero.mp h0))
  have hdL : (0 : ℚ) ≤ (l.filter (fun v => !(p v))).length := Nat.cast_nonneg _
  have hlL : (0 : ℚ) < l.length := by
    have : (l.filter p).length ≤ l.length := List.length_filter_le _ _
    have hq : ((l.filter p).length : ℚ) ≤ (l.length : ℚ) := by exact_mod_cast this
    linarith
  rw [div_le_div_iff hkL hlL]
  have hsumQ : (l.filter p).sum + (l.filter (fun v => !(p v))).sum = l.sum := hsum
  have hlenQ : ((l.filter p).length : ℚ) + ((l.filter (fun v => !(p v))).length : ℚ) =
      (l.length : ℚ) := by exact_mod_cast congrArg (fun n : ℕ => (n : ℚ)) hlen
  have e1 : (l.filter p).sum * (l.length : ℚ) =
      (l.filter p).sum * ((l.filter p).length : ℚ) +
      (l.filter p).sum * ((l.filter (fun v => !(p v))).length : ℚ) := by
    rw [← hlenQ]; ring
  have e2 : l.sum * ((l.filter p).length : ℚ) =
      (l.filter p).sum * ((l.filter p).length : ℚ) +
      (l.filter (fun v => !(p v))).sum * ((l.filter p).length : ℚ) := by
    rw [← hsumQ]; ring
  nlinarith [mul_le_mul_of_nonneg_right hkS hdL,
    mul_le_mul_of_nonneg_left hdS (le_of_lt hkL)]

lemma SS_eq_rsq (a b : ℚ) (l : List (ℚ × ℚ)) :
    (l.map (fun p => (a * p.1 + b - p.2) ^ 2)).sum = SS a b l := by
  induction l with
  | nil => simp [SS]
  | cons p t ih =>
    simp only [SS, List.map_cons, List.sum_cons] at ih ⊢
    linear_combination ih

lemma clipped_map_rsq (pts : List (ℚ × ℚ)) :
    (clippedSubset pts).map
        (fun p => ((polyfit pts).1 * p.1 + (polyfit pts).2 - p.2) ^ 2) =
      (pts.map (fun p => ((polyfit pts).1 * p.1 + (polyfit pts).2 - p.2) ^ 2)).filter
        (fun v => decide (v < 9 / 4 * npVar (fitVals pts))) := by
  simp only [clippedSubset]
  exact map_filter_comm
    (fun p => ((polyfit pts).1 * p.1 + (polyfit pts).2 - p.2) ^ 2)
    (fun v => decide (v < 9 / 4 * npVar (fitVals pts))) pts

lemma clippedSubset_length_le (pts : List (ℚ × ℚ)) :
    (clippedSubset pts).length ≤ pts.length :=
  List.length_filter_le _ _

lemma time_fitting_isSome (pts : List (ℚ × ℚ)) (h : (time_fitting pts).isSome = true) :
    4 ≤ (clippedSubset pts).length := by
  by_cases hlt : (clippedSubset pts).length < 4
  · rw [time_fitting, if_pos hlt] at h
    simp at h
  · omega

/-- Mean squared residual of the initial fit over the whole point set equals
its residual variance (the e zero-mean property of least-squares residuals). -/
lemma resVar_polyfit_eq_meanSS (pts : List (ℚ × ℚ)) (hne : pts ≠ []) :
    resVar (polyfit pts).1 (polyfit pts).2 pts =
      SS (polyfit pts).1 (polyfit pts).2 pts / pts.length := by
  have hzero : (pts.map (fun p => p.2 - ((polyfit pts).1 * p.1 + (polyfit pts).2))).sum = 0 := by
    rw [res_sum]
    have := (polyfit_normal pts hne).1
    linarith
  rw [resVar, npVar_of_sum_zero _ hzero, res_sq_sum, List.length_map]

/-- The sigma-clip / refit step of `time_fitting` can only shrink the
residual variance: refit residual variance over the clipped subset is at most
the initial-fit residual variance over the full set. -/
lemma resVar_clip_le (pts : List (ℚ × ℚ)) (h : (time_fitting pts).isSome = true) :
    resVar (polyfit (clippedSubset pts)).1 (polyfit (clippedSubset pts)).2
        (clippedSubset pts) ≤
      resVar (polyfit pts).1 (polyfit pts).2 pts := by
  have h4 := time_fitting_isSome pts h
  have hCne : clippedSubset pts ≠ [] := by
    intro h0
    rw [h0] at h4
    simp at h4
  have hPne : pts ≠ [] := by
    intro h0
    subst h0
    simp [clippedSubset] at h4
  have hClen : (0 : ℚ) < (clippedSubset pts).length := by
    have : 0 < (clippedSubset pts).length := by omega
    exact_mod_cast this
  -- step 1: refit residual variance <= refit mean squared residual
  have s1 : resVar (polyfit (clippedSubset pts)).1 (polyfit (clippedSubset pts)).2
      (clippedSubset pts) ≤
      SS (polyfit (clippedSubset pts)).1 (polyfit (clippedSubset pts)).2
        (clippedSubset pts) / (clippedSubset pts).length := by
    have hm := npVar_le_meanSq ((clippedSubset pts).map
      (fun p => p.2 - ((polyfit (clippedSubset pts)).1 * p.1 +
        (polyfit (clippedSubset pts)).2)))
    rw [res_sq_sum, List.length_map] at hm
    exact hm
  -- step 2: the refit minimizes the sum of squares on the clipped subset
  have s2 : SS (polyfit (clippedSubset pts)).1 (polyfit (clippedSubset pts)).2
      (clippedSubset pts) / (clippedSubset pts).length ≤
      SS (polyfit pts).1 (polyfit pts).2 (clippedSubset pts) /
        (clippedSubset pts).length :=
    (div_le_div_right hClen).mpr
      (polyfit_min (clippedSubset pts) hCne (polyfit pts).1 (polyfit pts).2)
  -- step 3: the clip removes exactly the large-residual points
  have s3 : SS (polyfit pts).1 (polyfit pts).2 (clippedSubset pts) /
      (clippedSubset pts).length ≤
      SS (polyfit pts).1 (polyfit pts).2 pts / pts.length := by
    have hmean := mean_filter_le
      (pts.map (fun p => ((polyfit pts).1 * p.1 + (polyfit pts).2 - p.2) ^ 2))
      (fun v => decide (v < 9 / 4 * npVar (fitVals pts)))
      (9 / 4 * npVar (fitVals pts))
      (by
        intro v _ hv
        exact le_of_lt (of_decide_eq_true hv))
      (by
        intro v _ hv
        exact le_of_not_lt (of_decide_eq_false hv))
      (by
        rw [← clipped_map_rsq]
        simp only [ne_eq, List.map_eq_nil]
        exact hCne)
    rw [← clipped_map_rsq] at hmean
    rw [SS_eq_rsq, List.length_map, SS_eq_rsq, List.length_map] at hmean
    exact hmean
  -- step 4: zero-mean residuals of the initial fit
  have s4 := resVar_polyfit_eq_meanSS pts hPne
  rw [s4]
  exact le_trans s1 (le_trans s2 s3)

/-! A zero-slope first fit makes the clipping threshold zero. -/

lemma slope_zero_threshold (pts : List (ℚ × ℚ)) (h : (polyfit pts).1 = 0) :
    9 / 4 * npVar (fitVals pts) = 0 := by
  have hconst : ∀ v ∈ fitVals pts, v = (polyfit pts).2 := by
    intro v hv
    obtain ⟨p, _, rfl⟩ := List.mem_map.mp hv
    rw [h, zero_mul, zero_add]
  rw [npVar_const _ _ hconst, mul_zero]

lemma slope_zero_clipped_nil (pts : List (ℚ × ℚ)) (h : (polyfit pts).1 = 0) :
    clippedSubset pts = [] := by
  rw [clippedSubset, List.filter_eq_nil_iff]
  intro p _
  simp only [decide_eq_true_eq]
  have hth := slope_zero_threshold pts h
  have h94 : npVar (fitVals pts) = 0 := by linarith
  rw [h94, mul_zero]
  exact not_lt.mpr (sq_nonneg _)

lemma slope_zero_fit_fails (pts : List (ℚ × ℚ)) (h : (polyfit pts).1 = 0) :
    time_fitting pts = none := by
  rw [time_fitting, if_pos]
  rw [slope_zero_clipped_nil pts h]
  simp

/-! Inversion lemmas for the per-coordinate engine bodies. -/

lemma flagRow_some (BY : ℕ) (rows : List GainRow) (x y : ℕ) (fr : FlaggedRow)
    (h : flagRow BY rows x y = some fr) :
    fr = ⟨round5 (listMin (((coordSamples rows x y).filter
        (fun r => decide (r.gain ≤ 3))).map (fun r => r.expstart))), x, y⟩ ∧
    400 / BY ≤ y ∧ y ≤ 600 / BY ∧
    ((coordSamples rows x y).filter (fun r => decide (r.gain ≤ 3))) ≠ [] := by
  simp only [flagRow] at h
  split at h
  · exact absurd h (by simp)
  next hband =>
    split at h
    · exact absurd h (by simp)
    next hempty =>
      rw [Option.some_inj] at h
      push_neg at hband
      refine ⟨h.symm, ?_, ?_, ?_⟩
      · omega
      · omega
      · intro hnil
        rw [hnil] at hempty
        simp at hempty

lemma slopeRow_some_inv (BY : ℕ) (rows : List GainRow) (x y : ℕ) (tr : GainTrendRow)
    (h : slopeRow BY rows x y = some tr) :
    tr.x = x ∧ tr.y = y ∧ 400 / BY ≤ y ∧ y ≤ 600 / BY ∧
    5 < (validSamples rows x y).length := by
  simp only [slopeRow] at h
  split at h
  · exact absurd h (by simp)
  next hband =>
    split at h
    · exact absurd h (by simp)
    next hlen =>
      push_neg at hband
      split at h
      · exact absurd h (by simp)
      next a b heq =>
        rw [Option.some_inj] at h
        rw [← h]
        refine ⟨rfl, rfl, by omega, by omega, by omega⟩

lemma slopeRow_eq_some (BY : ℕ) (rows : List GainRow) (x y : ℕ)
    (hband : ¬(600 / BY < y ∨ y < 400 / BY))
    (hlen : ¬((validSamples rows x y).length ≤ 5)) (a b : ℚ)
    (hfit : time_fitting ((sortByGain (validSamples rows x y)).map
      (fun r => (r.expstart, r.gain))) = some (a, b)) :
    slopeRow BY rows x y = some
      ⟨round5 ((newtonLinear a b (listLast ((sortByGain (validSamples rows x y)).map
          (fun r => r.gain)))).getD 0), x, y, round5 a, round5 b⟩ := by
  simp only [slopeRow]
  rw [if_neg hband, if_neg hlen, hfit]

lemma slopeRow_none_of_len (BY : ℕ) (rows : List GainRow) (x y : ℕ)
    (hlen : (validSamples rows x y).length ≤ 5) :
    slopeRow BY rows x y = none := by
  simp only [slopeRow]
  split
  · rfl
  · simp [hlen]

lemma slopeRow_none_of_fit (BY : ℕ) (rows : List GainRow) (x y : ℕ)
    (hfit : time_fitting ((sortByGain (validSamples rows x y)).map
      (fun r => (r.expstart, r.gain))) = none) :
    slopeRow BY rows x y = none := by
  simp only [slopeRow]
  split
  · rfl
  · split
    · rfl
    · rw [hfit]

/-! Projection-builder lemmas. -/

lemma block_coord (BY BX : ℕ) (hBY : 0 < BY) (hBX : 0 < BX) (r : GainTrendRow)
    (i j : ℕ) (h : inBlock BY BX r i j) : i / BY = r.y ∧ j / BX = r.x := by
  obtain ⟨h1, h2, h3, h4⟩ := h
  constructor
  · exact Nat.div_eq_of_lt_le (by omega) (by rw [Nat.succ_mul]; omega)
  · exact Nat.div_eq_of_lt_le (by omega) (by rw [Nat.succ_mul]; omega)

lemma inBlock_unique (BY BX : ℕ) (hBY : 0 < BY) (hBX : 0 < BX)
    (r s : GainTrendRow) (i j : ℕ) (hr : inBlock BY BX r i j)
    (hs : inBlock BY BX s i j) : (s.x, s.y) = (r.x, r.y) := by
  obtain ⟨hr1, hr2⟩ := block_coord BY BX hBY hBX r i j hr
  obtain ⟨hs1, hs2⟩ := block_coord BY BX hBY hBX s i j hs
  simp only [Prod.mk.injEq]
  omega

lemma foldl_paint_not_painted (BY BX : ℕ) (f : GainTrendRow → ℚ)
    (rows : List GainTrendRow) (i j : ℕ)
    (h : ∀ r ∈ rows, ¬ inBlock BY BX r i j) :
    ∀ init : ℕ → ℕ → ℚ,
      (rows.foldl (fun img r => paint BY BX (f r) r img) init) i j = init i j := by
  induction rows with
  | nil => intro init; rfl
  | cons a t ih =>
    intro init
    rw [List.foldl_cons]
    rw [ih (fun r hr => h r (List.mem_cons_of_mem a hr))]
    rw [paint, if_neg (h a (List.mem_cons_self a t))]

lemma foldl_paint_painted (BY BX : ℕ) (hBY : 0 < BY) (hBX : 0 < BX)
    (f : GainTrendRow → ℚ) (rows : List GainTrendRow)
    (hPW : rows.Pairwise (fun r s => (r.x, r.y) ≠ (s.x, s.y)))
    (r : GainTrendRow) (hr : r ∈ rows) (i j : ℕ) (hij : inBlock BY BX r i j) :
    ∀ init : ℕ → ℕ → ℚ,
      (rows.foldl (fun img r => paint BY BX (f r) r img) init) i j = f r := by
  induction rows with
  | nil => cases hr
  | cons a t ih =>
    intro init
    rw [List.foldl_cons]
    rcases List.mem_cons.mp hr with rfl | hrt
    · have hnone : ∀ s ∈ t, ¬ inBlock BY BX s i j := by
        intro s hs hsij
        exact (List.pairwise_cons.mp hPW).1 s hs
          ((inBlock_unique BY BX hBY hBX r s i j hij hsij).symm)
      rw [foldl_paint_not_painted BY BX f t i j hnone]
      rw [paint, if_pos hij]
    · exact ih (List.pairwise_cons.mp hPW).2 hrt _

/-- Bridge between the squared-form clip comparison and the source's
`|r| < 1.5 * sqrt(V)` form. -/
lemma sq_lt_iff_abs_lt_sqrt (r V : ℚ) (hV : 0 ≤ V) :
    r ^ 2 < 9 / 4 * V ↔ |(r : ℝ)| < 3 / 2 * Real.sqrt V := by
  have hcast : (r ^ 2 < 9 / 4 * V) ↔ ((r : ℝ) ^ 2 < 9 / 4 * (V : ℝ)) := by
    rw [show ((9 : ℝ) / 4 * (V : ℝ)) = (((9 / 4 * V : ℚ)) : ℝ) by push_cast; ring,
      show ((r : ℝ) ^ 2) = (((r ^ 2 : ℚ)) : ℝ) by push_cast; ring]
    exact Rat.cast_lt.symm
  rw [hcast]
  have hs : (0 : ℝ) ≤ Real.sqrt V := Real.sqrt_nonneg _
  have hsq : Real.sqrt V ^ 2 = (V : ℝ) := Real.sq_sqrt (by exact_mod_cast hV)
  constructor
  · intro h
    have h2 : |(r : ℝ)| ^ 2 < (3 / 2 * Real.sqrt V) ^ 2 := by
      rw [sq_abs]
      nlinarith
    exact lt_of_pow_lt_pow_left 2 (by positivity) h2
  · intro h
    have h2 : |(r : ℝ)| ^ 2 < (3 / 2 * Real.sqrt V) ^ 2 :=
      pow_lt_pow_left h (abs_nonneg _) (by norm_num)
    rw [sq_abs] at h2
    nlinarith

/-- C1 (counterexample): on the perfectly linear dataset `exLine` the claim
fails: `time_fitting` succeeds with all six points retained (the code clips
against 1.5 times the standard deviation of the fitted values, which is
positive here), while retention by "absolute residual < 1.5 times the
residual standard deviation" (`specResidClipped`, the spec's wording) keeps
no point at all, because every residual is 0 and the threshold is 0 with a
strict comparison. -/
theorem c1_counterexample :
    time_fitting exLine = some (1, 0) ∧ clippedSubset exLine = exLine ∧
      specResidClipped exLine = [] := by
  decide

/-- C1 (amended): the standard deviation used for sigma-clipping is the
population standard deviation of the FITTED VALUES of the initial fit (not
of its residuals), and exactly the points whose absolute residual is
< 1.5 times that quantity are retained for the refit. -/
theorem c1_clip_uses_fitted_value_std (pts : List (ℚ × ℚ)) (p : ℚ × ℚ) :
    p ∈ clippedSubset pts ↔ p ∈ pts ∧
      |(((polyfit pts).1 * p.1 + (polyfit pts).2 - p.2 : ℚ) : ℝ)| <
        3 / 2 * Real.sqrt ((npVar (fitVals pts) : ℚ) : ℝ) := by
  rw [clippedSubset, List.mem_filter]
  have hbr := sq_lt_iff_abs_lt_sqrt
    ((polyfit pts).1 * p.1 + (polyfit pts).2 - p.2) (npVar (fitVals pts))
    (npVar_nonneg _)
  constructor
  · rintro ⟨hmem, hdec⟩
    exact ⟨hmem, hbr.mp (of_decide_eq_true hdec)⟩
  · rintro ⟨hmem, habs⟩
    exact ⟨hmem, decide_eq_true (hbr.mpr habs)⟩

/-- C2: on the spec's concrete six-sample scenario, `measure_slopes` emits
exactly one `GainTrends` row, with negative slope and extrapolated failure
date between 55400 and 55500 (it is exactly 55400, where the gain hits 3.0),
and `find_flagged` emits exactly one `Flagged` row dated 55400. -/
theorem c2_concrete_scenario :
    (∃ tr : GainTrendRow, measure_slopes 2 exScenario = [tr] ∧
      tr.slope < 0 ∧ 55400 ≤ tr.mjd ∧ tr.mjd ≤ 55500) ∧
    (∃ fr : FlaggedRow, find_flagged 2 exScenario = [fr] ∧ fr.mjd = 55400) := by
  refine ⟨⟨⟨55400, 100, 250, -1/200, 280⟩, ?_, by norm_num, by norm_num, by norm_num⟩,
    ⟨⟨55400, 100, 250⟩, ?_, rfl⟩⟩
  · decide
  · decide

/-- C3 (counterexample): a coordinate with exactly 6 valid in-band samples
but constant gain produces NO `GainTrends` row, because the flat first fit
makes the clipping threshold zero and `time_fitting` fails; so "exactly 6
valid samples implies exactly one row" is false. -/
theorem c3_counterexample :
    (validSamples exFlat 100 250).length = 6 ∧
    400 / 2 ≤ 250 ∧ 250 ≤ 600 / 2 ∧
    measure_slopes 2 exFlat = [] := by
  decide

/-- C3 (amended): for every coordinate, exactly 5 valid samples produce no
`GainTrends` row; exactly 6 valid samples at an in-band coordinate produce a
row precisely when `time_fitting` succeeds on the gain-sorted samples (the
sample-count boundary is `> 5`, but success additionally requires the fit to
survive sigma-clipping). -/
theorem c3_min_samples_boundary (BY : ℕ) (rows : List GainRow) (x y : ℕ) :
    ((validSamples rows x y).length = 5 → slopeRow BY rows x y = none) ∧
    ((validSamples rows x y).length = 6 → ¬(600 / BY < y ∨ y < 400 / BY) →
      (slopeRow BY rows x y).isSome =
        (time_fitting ((sortByGain (validSamples rows x y)).map
          (fun r => (r.expstart, r.gain)))).isSome) := by
  constructor
  · intro h5
    exact slopeRow_none_of_len BY rows x y (by omega)
  · intro h6 hband
    rcases hfit : time_fitting ((sortByGain (validSamples rows x y)).map
        (fun r => (r.expstart, r.gain))) with _ | ab
    · rw [slopeRow_none_of_fit BY rows x y hfit, hfit]
      rfl
    · obtain ⟨a, b⟩ := ab
      rw [slopeRow_eq_some BY rows x y hband (by omega) a b hfit, hfit]
      rfl

/-- C3 (witness): `exFive` has exactly 5 valid samples (its sixth sample
falls before the era cutoff) and yields no row; the concrete scenario has 6
valid samples with a successful fit and yields a row. -/
theorem c3_min_samples_boundary_witness :
    slopeRow 2 exFive 100 250 = none ∧
    (slopeRow 2 exScenario 100 250).isSome = true := by
  constructor
  · exact (c3_min_samples_boundary 2 exFive 100 250).1 (by decide)
  · rw [(c3_min_samples_boundary 2 exScenario 100 250).2
      (by decide) (by decide)]
    decide

/-- C4: whenever `time_fitting` succeeds for an in-band coordinate with more
than 5 valid samples, a `GainTrends` row is always emitted (the per-
coordinate computation is total: the `RuntimeError` of a failed Newton
iteration is caught); its date is the exact Newton root `(3 - b) / a` of
`a·t + b - 3` when the slope `a` is nonzero, and the sentinel 0 when
`a = 0` (zero derivative, no convergence).  In particular a zero-slope fit
still yields a row, with `mjd = 0`. -/
theorem c4_newton_sentinel (BY : ℕ) (rows : List GainRow) (x y : ℕ) (a b : ℚ)
    (hband : ¬(600 / BY < y ∨ y < 400 / BY))
    (hlen : ¬((validSamples rows x y).length ≤ 5))
    (hfit : time_fitting ((sortByGain (validSamples rows x y)).map
      (fun r => (r.expstart, r.gain))) = some (a, b)) :
    slopeRow BY rows x y = some
      ⟨round5 (if a = 0 then 0 else (3 - b) / a), x, y, round5 a, round5 b⟩ ∧
    (a = 0 → ∃ tr : GainTrendRow, slopeRow BY rows x y = some tr ∧ tr.mjd = 0) := by
  have hgetD : (newtonLinear a b (listLast ((sortByGain (validSamples rows x y)).map
      (fun r => r.gain)))).getD 0 = if a = 0 then 0 else (3 - b) / a := by
    rw [newtonLinear]
    split
    · rfl
    · rfl
  have hrow := slopeRow_eq_some BY rows x y hband hlen a b hfit
  rw [hgetD] at hrow
  refine ⟨hrow, ?_⟩
  intro h0
  refine ⟨⟨round5 (if a = 0 then 0 else (3 - b) / a), x, y, round5 a, round5 b⟩, hrow, ?_⟩
  show round5 (if a = 0 then 0 else (3 - b) / a) = 0
  rw [if_pos h0]
  decide

/-- C4 (witness): on `exFlatOutlier` the clip drops the outlier, the refit
is flat (slope 0, intercept 2), Newton diverges, and the row is still
emitted with the sentinel date 0. -/
theorem c4_newton_sentinel_witness :
    slopeRow 2 exFlatOutlier 100 250 = some ⟨0, 100, 250, 0, 2⟩ ∧
    (∃ tr : GainTrendRow, slopeRow 2 exFlatOutlier 100 250 = some tr ∧ tr.mjd = 0) := by
  have h := c4_newton_sentinel 2 exFlatOutlier 100 250 0 2 (by decide)
    (by decide) (by decide)
  constructor
  · rw [h.1]
    decide
  · exact h.2 rfl

/-- C5: every row of either output table has its binned y inside the
spectral band: `400 / Y_BINNING ≤ y ≤ 600 / Y_BINNING` (endpoints are the
code's integer divisions, which agree with the rational endpoints whenever
`Y_BINNING` divides 400 and 600); a coordinate outside the band is never
emitted regardless of its gain values. -/
theorem c5_spectral_band_exclusion (BY : ℕ) (rows : List GainRow) :
    (∀ fr ∈ find_flagged BY rows, 400 / BY ≤ fr.y ∧ fr.y ≤ 600 / BY) ∧
    (∀ tr ∈ measure_slopes BY rows, 400 / BY ≤ tr.y ∧ tr.y ≤ 600 / BY) := by
  constructor
  · intro fr hfr
    obtain ⟨c, _, hrow⟩ := List.mem_filterMap.mp hfr
    obtain ⟨heq, h1, h2, _⟩ := flagRow_some BY rows c.1 c.2 fr hrow
    rw [heq]
    exact ⟨h1, h2⟩
  · intro tr htr
    obtain ⟨c, _, hrow⟩ := List.mem_filterMap.mp htr
    obtain ⟨_, hy, h1, h2, _⟩ := slopeRow_some_inv BY rows c.1 c.2 tr hrow
    rw [hy]
    exact ⟨h1, h2⟩

/-- C5 (witness): the flagged row of the concrete scenario lies in the band
for `Y_BINNING = 2`. -/
theorem c5_spectral_band_exclusion_witness :
    (⟨55400, 100, 250⟩ : FlaggedRow) ∈ find_flagged 2 exScenario ∧
    400 / 2 ≤ 250 ∧ 250 ≤ 600 / 2 := by
  have hmem : (⟨55400, 100, 250⟩ : FlaggedRow) ∈ find_flagged 2 exScenario := by
    decide
  have h := (c5_spectral_band_exclusion 2 exScenario).1 _ hmem
  exact ⟨hmem, h.1, h.2⟩

/-- C6 (counterexample): a sample dated exactly MJD 55197 is present in the
partition but EXCLUDED from both engines' per-coordinate sample sets (the
source filters `expstart > 55197` strictly), and the flagged date for its
coordinate comes from the later sample: the claim that an `expstart = 55197`
sample is retained is false. -/
theorem c6_counterexample :
    exEraRow ∈ exEra ∧ exEraRow.expstart = 55197 ∧
    exEraRow ∉ coordSamples exEra 100 250 ∧
    exEraRow ∉ validSamples exEra 100 250 ∧
    find_flagged 2 exEra = [⟨55300, 100, 250⟩] := by
  decide

/-- C6 (amended): in both engines the era filter retains exactly the samples
with `expstart > 55197`; a sample with `expstart = 55197` is excluded. -/
theorem c6_era_filter_strict (rows : List GainRow) (x y : ℕ) (s : GainRow) :
    (s ∈ coordSamples rows x y ↔
      s ∈ rows ∧ s.x = x ∧ s.y = y ∧ 55197 < s.expstart) ∧
    (s ∈ validSamples rows x y ↔
      s ∈ rows ∧ s.x = x ∧ s.y = y ∧ 0 < s.gain ∧ 55197 < s.expstart) ∧
    (s.expstart = 55197 → s ∉ coordSamples rows x y ∧ s ∉ validSamples rows x y) := by
  refine ⟨?_, ?_, ?_⟩
  · simp [coordSamples, List.mem_filter, and_assoc]
  · simp [validSamples, List.mem_filter, and_assoc]
  · intro hs
    constructor
    · intro hmem
      have := of_decide_eq_true (List.mem_filter.mp hmem).2
      rw [hs] at this
      exact lt_irrefl _ this.2.2
    · intro hmem
      have := of_decide_eq_true (List.mem_filter.mp hmem).2
      rw [hs] at this
      exact lt_irrefl _ this.2.2.2

/-- C6 (witness): the boundary sample of `exEra` is excluded from the
flagging sample set by the amended rule. -/
theorem c6_era_filter_strict_witness :
    exEraRow ∉ coordSamples exEra 100 250 :=
  ((c6_era_filter_strict exEra 100 250 exEraRow).2.2 (by norm_num [exEraRow, mkRow])).1

/-- C7: for every dataset accepted by `time_fitting`, the residual standard
deviation of the refit over the clipped subset is at most the residual
standard deviation of the initial fit over the full dataset. -/
theorem c7_sigma_clip_monotone (pts : List (ℚ × ℚ))
    (h : (time_fitting pts).isSome = true) :
    Real.sqrt ((resVar (polyfit (clippedSubset pts)).1
        (polyfit (clippedSubset pts)).2 (clippedSubset pts) : ℚ) : ℝ) ≤
      Real.sqrt ((resVar (polyfit pts).1 (polyfit pts).2 pts : ℚ) : ℝ) := by
  apply Real.sqrt_le_sqrt
  exact_mod_cast resVar_clip_le pts h

/-- C7 (witness): the monotonicity instantiated on the accepted dataset
`exLine`. -/
theorem c7_sigma_clip_monotone_witness :
    (time_fitting exLine).isSome = true ∧
    Real.sqrt ((resVar (polyfit (clippedSubset exLine)).1
        (polyfit (clippedSubset exLine)).2 (clippedSubset exLine) : ℚ) : ℝ) ≤
      Real.sqrt ((resVar (polyfit exLine).1 (polyfit exLine).2 exLine : ℚ) : ℝ) :=
  ⟨by decide,
    c7_sigma_clip_monotone exLine (by decide)⟩

/-- C8: projection reconstruction over the (1024, 16384) grid: for rows with
pairwise distinct coordinates (as produced per combination by
`measure_slopes`), every pixel of a row's binning block holds that row's
slope / intercept / mjd in the respective array, every pixel covered by no
block is 0 in all three arrays, and if the slope array is all-zero on the
(1024, 16384) grid then no output artifact is produced. -/
theorem c8_projection_reconstruction (BY BX : ℕ) (hBY : 0 < BY) (hBX : 0 < BX)
    (rows : List GainTrendRow)
    (hPW : rows.Pairwise (fun r s => (r.x, r.y) ≠ (s.x, s.y))) :
    (∀ r ∈ rows, ∀ i j, inBlock BY BX r i j →
      slopeImage BY BX rows i j = r.slope ∧
      interceptImage BY BX rows i j = r.intercept ∧
      badImage BY BX rows i j = r.mjd) ∧
    (∀ i j, (∀ r ∈ rows, ¬ inBlock BY BX r i j) →
      slopeImage BY BX rows i j = 0 ∧ interceptImage BY BX rows i j = 0 ∧
      badImage BY BX rows i j = 0) ∧
    ((∀ i j, i < 1024 → j < 16384 → slopeImage BY BX rows i j = 0) →
      projection BY BX rows = none) := by
  refine ⟨?_, ?_, ?_⟩
  · intro r hr i j hij
    exact ⟨foldl_paint_painted BY BX hBY hBX (fun t => t.slope) rows hPW r hr i j hij _,
      foldl_paint_painted BY BX hBY hBX (fun t => t.intercept) rows hPW r hr i j hij _,
      foldl_paint_painted BY BX hBY hBX (fun t => t.mjd) rows hPW r hr i j hij _⟩
  · intro i j hno
    exact ⟨foldl_paint_not_painted BY BX _ rows i j hno _,
      foldl_paint_not_painted BY BX _ rows i j hno _,
      foldl_paint_not_painted BY BX _ rows i j hno _⟩
  · intro hz
    have hpix : ∀ i j, i < 1024 → j < 16384 →
        decide (slopeImage BY BX rows i j ≠ 0) = false := fun i j hi hj =>
      decide_eq_false (fun hne => hne (hz i j hi hj))
    have hinner : ∀ i, i < 1024 →
        (List.range 16384).any (fun j => decide (slopeImage BY BX rows i j ≠ 0)) = false := by
      intro i hi
      rw [List.any_eq_false]
      intro j hj
      rw [List.mem_range] at hj
      simp [hpix i j hi hj]
    have hfalse : slopeAny BY BX rows = false := by
      rw [slopeAny, List.any_eq_false]
      intro i hi
      rw [List.mem_range] at hi
      rw [hinner i hi]
      simp
    simp [projection, hfalse]

/-- C8 (witness): a single row at binned (x = 2, y = 50) with slope -0.01
paints exactly its unbinned block (here with binning 2 x 8) and leaves other
pixels 0. -/
theorem c8_projection_reconstruction_witness :
    inBlock 2 8 exTrendRow 100 16 ∧
    slopeImage 2 8 [exTrendRow] 100 16 = -1/100 ∧
    slopeImage 2 8 [exTrendRow] 0 0 = 0 := by
  have h := c8_projection_reconstruction 2 8 (by norm_num) (by norm_num)
    [exTrendRow] (by simp)
  have hblk : inBlock 2 8 exTrendRow 100 16 := by decide
  refine ⟨hblk, ?_, ?_⟩
  · have hs := (h.1 exTrendRow (by simp) 100 16 hblk).1
    rw [hs]
    norm_num [exTrendRow]
  · refine (h.2.1 0 0 ?_).1
    intro r hr
    simp only [List.mem_singleton] at hr
    subst hr
    exact (by decide : ¬ inBlock 2 8 exTrendRow 0 0)

/-- C9: whenever the initial degree-1 fit has slope exactly 0, the clipping
threshold `1.5 * fit.std()` is 0, the strict comparison retains no points,
and `time_fitting` fails, regardless of how many samples were supplied. -/
theorem c9_zero_slope_always_fails (pts : List (ℚ × ℚ))
    (h : (polyfit pts).1 = 0) :
    9 / 4 * npVar (fitVals pts) = 0 ∧ clippedSubset pts = [] ∧
      time_fitting pts = none :=
  ⟨slope_zero_threshold pts h, slope_zero_clipped_nil pts h,
    slope_zero_fit_fails pts h⟩

/-- C9 (witness): the constant-gain dataset has a zero-slope first fit and
`time_fitting` fails on it even with 6 samples. -/
theorem c9_zero_slope_always_fails_witness :
    (polyfit ((sortByGain exFlat).map (fun r => (r.expstart, r.gain)))).1 = 0 ∧
    time_fitting ((sortByGain exFlat).map (fun r => (r.expstart, r.gain))) = none := by
  have h0 : (polyfit ((sortByGain exFlat).map (fun r => (r.expstart, r.gain)))).1 = 0 := by
    decide
  exact ⟨h0, (c9_zero_slope_always_fails _ h0).2.2⟩

/-- C10: for an enumerated in-band coordinate with at least one qualifying
sample, the emitted `Flagged` date is the minimum `expstart` over the
samples with `gain ≤ 3` and `expstart > 55197` — the `counts ≥ 30`
condition of the coordinate enumeration does not appear in this formula, so
the recorded date may come from a sample with counts below 30. -/
theorem c10_counts_only_gate_enumeration (BY : ℕ) (rows : List GainRow) (x y : ℕ)
    (hband : ¬(600 / BY < y ∨ y < 400 / BY))
    (hbelow : (coordSamples rows x y).filter (fun r => decide (r.gain ≤ 3)) ≠ []) :
    flagRow BY rows x y = some
      ⟨round5 (listMin ((rows.filter (fun r =>
          decide (r.x = x ∧ r.y = y ∧ 55197 < r.expstart ∧ r.gain ≤ 3))).map
        (fun r => r.expstart))), x, y⟩ := by
  have hmerge : (coordSamples rows x y).filter (fun r => decide (r.gain ≤ 3)) =
      rows.filter (fun r =>
        decide (r.x = x ∧ r.y = y ∧ 55197 < r.expstart ∧ r.gain ≤ 3)) := by
    rw [coordSamples, List.filter_filter]
    apply List.filter_congr
    intro a _
    by_cases h1 : a.gain ≤ 3 <;> by_cases h2 : a.x = x <;> by_cases h3 : a.y = y <;>
      by_cases h4 : 55197 < a.expstart <;> simp [h1, h2, h3, h4]
  have hempty : ((coordSamples rows x y).filter
      (fun r => decide (r.gain ≤ 3))).isEmpty = false := by
    rcases hl : (coordSamples rows x y).filter (fun r => decide (r.gain ≤ 3)) with _ | _
    · exact absurd hl hbelow
    · rw [hl]
      rfl
  simp only [flagRow]
  rw [if_neg hband, hempty]
  simp only [Bool.false_eq_true, if_false]
  rw [hmerge]

/-- C10 (witness): in `exC10` the coordinate is enumerated thanks to its
(gain 3, counts 30) sample, yet the emitted date 55300 comes from the
earlier sample whose counts are 10 < 30. -/
theorem c10_counts_only_gate_enumeration_witness :
    (100, 250) ∈ flagCoords exC10 ∧
    flagRow 2 exC10 100 250 = some ⟨55300, 100, 250⟩ ∧
    (mkRow 55300 2 10).counts < 30 := by
  refine ⟨by decide, ?_, by norm_num [mkRow]⟩
  have h := c10_counts_only_gate_enumeration 2 exC10 100 250 (by decide)
    (by decide)
  rw [h]
  decide
